import Mathlib

/-
Verification development for the formdata request-body transformation
filter (src/formdata.go).  Shallow embedding:

  * Go `map[string][]string` (url.Values / multipart value maps) is an
    association list `Form := List (String × List String)`; a Go map has
    unique keys, which theorems assume as a `Nodup` hypothesis where it
    matters.  Go map iteration order is arbitrary; the list order is the
    iteration order the model fixes.
  * Requests carry only the fields the filter reads or writes: the
    Content-Type header value, the body bytes (as a string), the
    content length in bytes, the GetBody replay closure (modelled as a
    function returning the string the fresh reader would yield), and
    the parsed-form state (PostForm / MultipartForm).
  * External calls that can fail (req.ParseForm, req.ParseMultipartForm,
    the multipart writer operations) are oracle parameters: an
    `Except`/`Option` argument carries the outcome the environment chose.
  * The randomly generated multipart boundary is an oracle parameter.
-/

abbrev Form := List (String × List String)

structure FileHeader where
  filename : String
  content : String
deriving DecidableEq, Repr

structure MultipartForm where
  value : Form
  file : List (String × List FileHeader)
deriving DecidableEq, Repr

structure Response where
  status : Nat
  message : String
deriving DecidableEq, Repr

structure Request where
  contentType : String
  body : String
  contentLength : Nat
  getBody : Option (Unit → Except String String)
  postForm : Option Form
  multipartForm : Option MultipartForm

/-- The Formdata plugin configuration (struct Formdata in formdata.go):
`set` and `appendTo` embed Go maps `map[string]string` as association
lists, `delete` is the `[]string` of keys to remove. -/
structure Formdata where
  set : List (String × String)
  appendTo : List (String × String)
  delete : List String

/-- First-match lookup in an association list, the model of Go map read. -/
def lookupForm (k : String) : Form → Option (List String)
  | [] => none
  | kv :: rest => if kv.1 = k then some kv.2 else lookupForm k rest

/-- Model of Go `delete(values, k)` (url.Values.Del). -/
def eraseEntry (k : String) : Form → Form
  | [] => []
  | kv :: rest => if kv.1 = k then eraseEntry k rest else kv :: eraseEntry k rest

/-- Model of Go `values[k] = vs` (url.Values.Set with vs = [v]). -/
def setEntry (k : String) (vs : List String) : Form → Form
  | [] => [(k, vs)]
  | kv :: rest => if kv.1 = k then (k, vs) :: rest else kv :: setEntry k vs rest

/-- Model of Go `values[k] = append(values[k], v)` (url.Values.Add). -/
def addEntry (k v : String) : Form → Form
  | [] => [(k, [v])]
  | kv :: rest => if kv.1 = k then (k, kv.2 ++ [v]) :: rest else kv :: addEntry k v rest

/-- applyOpsToValues (formdata.go:131): delete, then set, then append. -/
def Formdata.applyOpsToValues (a : Formdata) (values : Form) : Form :=
  let v1 := a.delete.foldl (fun m k => eraseEntry k m) values
  let v2 := a.set.foldl (fun m kv => setEntry kv.1 [kv.2] m) v1
  a.appendTo.foldl (fun m kv => addEntry kv.1 kv.2 m) v2

/-- The three mutation loops of handleURLEncoded (formdata.go:77-85):
form.Del over a.delete, form.Set over a.set, form.Add over a.appendTo. -/
def Formdata.mutateForm (a : Formdata) (form : Form) : Form :=
  let f1 := a.delete.foldl (fun m k => eraseEntry k m) form
  let f2 := a.set.foldl (fun m kv => setEntry kv.1 [kv.2] m) f1
  a.appendTo.foldl (fun m kv => addEntry kv.1 kv.2 m) f2

example : lookupForm "b" (Formdata.applyOpsToValues ⟨[("b", "y")], [("b", "w")], ["a"]⟩ [("a", ["1", "2"]), ("b", ["x"])]) = some ["y", "w"] := by decide

example : Formdata.applyOpsToValues ⟨[("b", "y"), ("c", "z")], [("b", "w"), ("d", "q")], ["a"]⟩ [("a", ["1", "2"]), ("b", ["x"])] = [("b", ["y", "w"]), ("c", ["z"]), ("d", ["q"])] := by decide

/-
URL-encoded re-serialization: model of url.Values.Encode and
url.QueryEscape (net/url), which handleURLEncoded calls at
formdata.go:87.  Go operates on the UTF-8 bytes of the string; the
model encodes each character to its UTF-8 bytes explicitly.
-/

/-- UTF-8 encoding of one character, as byte values. -/
def utf8Bytes (c : Char) : List Nat :=
  let n := c.toNat
  if n < 128 then [n]
  else if n < 2048 then [192 + n / 64, 128 + n % 64]
  else if n < 65536 then [224 + n / 4096, 128 + (n / 64) % 64, 128 + n % 64]
  else [240 + n / 262144, 128 + (n / 4096) % 64, 128 + (n / 64) % 64, 128 + n % 64]

/-- Byte length of a string, the model of Go `len(s)`. -/
def byteLen (s : String) : Nat :=
  (s.data.map (fun c => (utf8Bytes c).length)).sum

/-- Go net/url shouldEscape in encodeQueryComponent mode: alphanumeric
bytes and the four unreserved marks stay, every other byte is escaped. -/
def shouldEscapeQuery (b : Nat) : Bool :=
  if (65 ≤ b && b ≤ 90) || (97 ≤ b && b ≤ 122) || (48 ≤ b && b ≤ 57) then false
  else if b = 45 || b = 95 || b = 46 || b = 126 then false
  else true

def hexDigits : List Char := ['0', '1', '2', '3', '4', '5', '6', '7', '8', '9', 'A', 'B', 'C', 'D', 'E', 'F']

def percentStr : String := "%"

def plusStr : String := "+"

/-- Escaping of one byte per Go net/url escape (query mode): space
becomes a plus sign, unescaped bytes pass through, the rest become a
percent escape with upper-case hex digits. -/
def queryEscapeByte (b : Nat) : String :=
  if b = 32 then plusStr
  else if shouldEscapeQuery b then
    percentStr ++ String.singleton (hexDigits.getD (b / 16) ('0')) ++ String.singleton (hexDigits.getD (b % 16) ('0'))
  else String.singleton (Char.ofNat b)

/-- Model of url.QueryEscape: escape every UTF-8 byte of the string. -/
def queryEscape (s : String) : String :=
  String.join (s.data.flatMap (fun c => (utf8Bytes c).map queryEscapeByte))

/-- Lexicographic order on character sequences by code point; on UTF-8
data this coincides with Go's byte-wise string comparison. -/
def lexLe : List Char → List Char → Bool
  | [], _ => true
  | _ :: _, [] => false
  | a :: as, b :: bs => a.toNat < b.toNat || (a.toNat = b.toNat && lexLe as bs)

def strLe (a b : String) : Bool := lexLe a.data b.data

def insertSorted (x : String) : List String → List String
  | [] => [x]
  | y :: ys => if strLe x y then x :: y :: ys else y :: insertSorted x ys

/-- Model of Go sort.Strings, used by url.Values.Encode on the key list. -/
def sortStrings (l : List String) : List String :=
  l.foldr insertSorted []

def ampStr : String := "&"

def eqStr : String := "="

/-- Model of url.Values.Encode: collect the keys, sort them, and for
each key in order emit key=value pieces for each value in order,
joined by ampersands (Go writes an ampersand whenever the buffer is
already non-empty). -/
def encode (v : Form) : String :=
  let keys := sortStrings (v.map Prod.fst)
  keys.foldl
    (fun buf k =>
      let vs := (lookupForm k v).getD []
      let keyEscaped := queryEscape k
      vs.foldl
        (fun buf w =>
          (if buf = "" then buf else buf ++ ampStr) ++ keyEscaped ++ eqStr ++ queryEscape w)
        buf)
    ""

/-- The key=value pieces of `encode`, flattened into one list. -/
def encodePieces (v : Form) : List String :=
  (sortStrings (v.map Prod.fst)).flatMap
    (fun k => ((lookupForm k v).getD []).map
      (fun w => queryEscape k ++ eqStr ++ queryEscape w))

/-- Ampersand-joining of nonempty pieces. -/
def joinAmp : List String → String
  | [] => ""
  | p :: ps => ps.foldl (fun acc q => acc ++ ampStr ++ q) p

example : encode [("b", ["x y"]), ("a", ["1", "2"])] = "a=1&a=2&b=x+y" := by decide

example : queryEscape "a/~Z" = "a%2F~Z" := by decide

/-
Multipart reconstruction: model of mime/multipart.Writer as used by
handleMultipart (formdata.go:108-121).  writeValues emits one text part
per value, writeFiles one file part per FileHeader; the writer renders
each part as dash-boundary, CRLF, sorted headers, blank line, content,
with a CRLF separating consecutive parts, and Close appends the final
dash-boundary terminator.
-/

inductive MPart where
  | text : String → String → MPart
  | file : String → String → String → MPart
deriving DecidableEq, Repr

def crlf : String := "\r\n"

def dashdash : String := "--"

def quoteStr : String := "\x22"

def bsbs : String := "\\\\"

def bsq : String := "\\\x22"

/-- Model of mime/multipart escapeQuotes: backslash and double quote
are escaped with a backslash. -/
def escapeQuotes (s : String) : String :=
  String.join (s.data.map (fun c =>
    if c = '\\' then bsbs else if c = '\x22' then bsq else String.singleton c))

def cdPre : String := "Content-Disposition: form-data; name=\x22"

def fnMid : String := "\x22; filename=\x22"

def octHeader : String := "\x22\r\nContent-Type: application/octet-stream\r\n"

def fieldHeaderEnd : String := "\x22\r\n"

/-- Header block of a part: WriteField uses only a Content-Disposition
header; CreateFormFile adds the filename parameter and a Content-Type
header (CreatePart emits headers in sorted key order, and
Content-Disposition sorts before Content-Type). -/
def partHeaderStr : MPart → String
  | .text name _ => cdPre ++ escapeQuotes name ++ fieldHeaderEnd
  | .file name filename _ => cdPre ++ escapeQuotes name ++ fnMid ++ escapeQuotes filename ++ octHeader

def partContent : MPart → String
  | .text _ v => v
  | .file _ _ c => c

/-- One part as CreatePart renders it: the first part opens with
dash-boundary, later parts are preceded by a CRLF. -/
def renderPart (b : String) (first : Bool) (p : MPart) : String :=
  (if first then dashdash ++ b ++ crlf else crlf ++ dashdash ++ b ++ crlf)
    ++ partHeaderStr p ++ crlf ++ partContent p

def renderParts (b : String) : List MPart → String
  | [] => ""
  | p :: ps => renderPart b true p ++ String.join (ps.map (renderPart b false))

/-- Writer.Close terminator. -/
def closeDelim (b : String) : String :=
  crlf ++ dashdash ++ b ++ dashdash ++ crlf

/-- The full rebuilt multipart body for a part list and boundary. -/
def multipartBody (b : String) (parts : List MPart) : String :=
  renderParts b parts ++ closeDelim b

/-- writeValues (formdata.go:144): one WriteField per value, in map
iteration order over keys and slice order within a key. -/
def writeValues (values : Form) : List MPart :=
  values.flatMap (fun kv => kv.2.map (fun v => MPart.text kv.1 v))

/-- writeFiles (formdata.go:156): one CreateFormFile + full io.Copy per
FileHeader, preserving field name, filename and content. -/
def writeFiles (files : List (String × List FileHeader)) : List MPart :=
  files.flatMap (fun ffhs => ffhs.2.map (fun fh => MPart.file ffhs.1 fh.filename fh.content))

/-- The (field name, filename, content) triples of the file parts of a
part list, in order. -/
def fileTriples : List MPart → List (String × String × String)
  | [] => []
  | .text _ _ :: ps => fileTriples ps
  | .file f n c :: ps => (f, n, c) :: fileTriples ps

/-
The two handlers and the dispatcher.  Response statuses are the literal
http.StatusBadRequest = 400 and http.StatusInternalServerError = 500.
-/

def ctURLEncoded : String := "application/x-www-form-urlencoded"

def ctFormData : String := "multipart/form-data"

def ctMultipartPre : String := "multipart/form-data; boundary="

/-- handleURLEncoded (formdata.go:69-91).  The oracle `parseRes` is the
outcome of req.ParseForm: on error, http.Error writes a 400 response
with the parser message and the request is untouched; on success the
parsed PostForm is mutated in place, re-encoded, and body, content
length and GetBody are replaced. -/
def Formdata.handleURLEncoded (a : Formdata) (req : Request)
    (parseRes : Except String Form) : Request × List Response :=
  match parseRes with
  | .error e => (req, [⟨400, e⟩])
  | .ok f =>
    let form := a.mutateForm f
    let encoded := encode form
    ({ req with
        postForm := some form
        body := encoded
        contentLength := byteLen encoded
        getBody := some (fun _ => Except.ok encoded) }, [])

/-- handleMultipart (formdata.go:94-128).  Oracles: `parseRes` is the
outcome of req.ParseMultipartForm together with the resulting
req.MultipartForm (which Go may leave nil), `wvErr`/`wfErr`/`clErr` are
the outcomes of writeValues, writeFiles and writer.Close, and
`boundary` is the randomly generated writer boundary.  The mutation of
m.Value happens in place before the rebuild, so every error exit after
it keeps the mutated MultipartForm while leaving body, content length,
Content-Type and GetBody untouched. -/
def Formdata.handleMultipart (a : Formdata) (req : Request)
    (parseRes : Except String (Option MultipartForm))
    (wvErr wfErr clErr : Option String) (boundary : String) : Request × List Response :=
  match parseRes with
  | .error e => (req, [⟨400, e⟩])
  | .ok none => (req, [])
  | .ok (some m) =>
    let newValue := a.applyOpsToValues m.value
    let req1 : Request := { req with multipartForm := some ⟨newValue, m.file⟩ }
    match wvErr with
    | some e => (req1, [⟨500, e⟩])
    | none =>
      match wfErr with
      | some e => (req1, [⟨500, e⟩])
      | none =>
        match clErr with
        | some e => (req1, [⟨500, e⟩])
        | none =>
          let encoded := multipartBody boundary (writeValues newValue ++ writeFiles m.file)
          ({ req1 with
              body := encoded
              contentLength := byteLen encoded
              contentType := ctMultipartPre ++ boundary
              getBody := some (fun _ => Except.ok encoded) }, [])

/-- Model of strings.HasPrefix. -/
def hasPrefixStr (pre s : String) : Bool :=
  List.isPrefixOf pre.data s.data

/-- External outcomes a single request processing can encounter. -/
structure Effects where
  parseForm : Except String Form
  parseMultipart : Except String (Option MultipartForm)
  wvErr : Option String
  wfErr : Option String
  clErr : Option String
  boundary : String

structure ServeResult where
  finalReq : Request
  responses : List Response
  downstreamCalled : Bool

/-- ServeHTTP (formdata.go:57-66): dispatch on the Content-Type prefix,
then unconditionally invoke the downstream handler with the (possibly
rewritten) request. -/
def Formdata.serveHTTP (a : Formdata) (req : Request) (e : Effects) : ServeResult :=
  let hr :=
    if hasPrefixStr ctURLEncoded req.contentType then
      a.handleURLEncoded req e.parseForm
    else if hasPrefixStr ctFormData req.contentType then
      a.handleMultipart req e.parseMultipart e.wvErr e.wfErr e.clErr e.boundary
    else (req, [])
  ⟨hr.1, hr.2, true⟩

/-
Lemmas about the primitive map operations and the operation folds.
-/

theorem lookup_erase_self (k : String) (m : Form) :
    lookupForm k (eraseEntry k m) = none := by
  induction m with
  | nil => rfl
  | cons kv rest ih =>
    obtain ⟨k1, vs1⟩ := kv
    by_cases h : k1 = k
    · simp [eraseEntry, h, ih]
    · simp [eraseEntry, h, lookupForm, ih]

theorem lookup_erase_ne (k k' : String) (m : Form) (h : k' ≠ k) :
    lookupForm k' (eraseEntry k m) = lookupForm k' m := by
  induction m with
  | nil => rfl
  | cons kv rest ih =>
    obtain ⟨k1, vs1⟩ := kv
    by_cases hk : k1 = k
    · subst hk
      have h1 : ¬ k1 = k' := fun hc => h (hc ▸ rfl)
      simp [eraseEntry, lookupForm, h1, ih]
    · simp [eraseEntry, hk, lookupForm, ih]

theorem lookup_set_self (k : String) (vs : List String) (m : Form) :
    lookupForm k (setEntry k vs m) = some vs := by
  induction m with
  | nil => simp [setEntry, lookupForm]
  | cons kv rest ih =>
    obtain ⟨k1, vs1⟩ := kv
    by_cases h : k1 = k
    · simp [setEntry, h, lookupForm]
    · simp [setEntry, h, lookupForm, ih]

theorem lookup_set_ne (k k' : String) (vs : List String) (m : Form) (h : k' ≠ k) :
    lookupForm k' (setEntry k vs m) = lookupForm k' m := by
  have h1 : ¬ k = k' := fun hc => h hc.symm
  induction m with
  | nil => simp [setEntry, lookupForm, h1]
  | cons kv rest ih =>
    obtain ⟨k1, vs1⟩ := kv
    by_cases hk : k1 = k
    · subst hk
      simp [setEntry, lookupForm, h1]
    · simp [setEntry, hk, lookupForm, ih]

theorem lookup_add_self (k v : String) (m : Form) :
    lookupForm k (addEntry k v m) = some ((lookupForm k m).getD [] ++ [v]) := by
  induction m with
  | nil => simp [addEntry, lookupForm]
  | cons kv rest ih =>
    obtain ⟨k1, vs1⟩ := kv
    by_cases h : k1 = k
    · simp [addEntry, h, lookupForm]
    · simp [addEntry, h, lookupForm, ih]

theorem lookup_add_ne (k k' v : String) (m : Form) (h : k' ≠ k) :
    lookupForm k' (addEntry k v m) = lookupForm k' m := by
  have h1 : ¬ k = k' := fun hc => h hc.symm
  induction m with
  | nil => simp [addEntry, lookupForm, h1]
  | cons kv rest ih =>
    obtain ⟨k1, vs1⟩ := kv
    by_cases hk : k1 = k
    · subst hk
      simp [addEntry, lookupForm, h1]
    · simp [addEntry, hk, lookupForm, ih]

theorem del_fold_lookup (dels : List String) (m : Form) (k : String) :
    lookupForm k (dels.foldl (fun m k => eraseEntry k m) m) =
      if k ∈ dels then none else lookupForm k m := by
  induction dels generalizing m with
  | nil => simp
  | cons d ds ih =>
    rw [List.foldl_cons, ih]
    by_cases hd : k = d
    · subst hd
      simp [lookup_erase_self]
    · by_cases hm : k ∈ ds
      · simp [hm, List.mem_cons, hd]
      · simp [hm, List.mem_cons, hd, lookup_erase_ne d k m hd]

theorem set_fold_lookup_not_mem (sets : List (String × String)) (m : Form) (k : String)
    (h : ∀ p ∈ sets, p.1 ≠ k) :
    lookupForm k (sets.foldl (fun m kv => setEntry kv.1 [kv.2] m) m) = lookupForm k m := by
  induction sets generalizing m with
  | nil => rfl
  | cons p ps ih =>
    rw [List.foldl_cons, ih _ (fun q hq => h q (List.mem_cons_of_mem p hq))]
    exact lookup_set_ne p.1 k [p.2] m (fun hc => h p (List.mem_cons_self p ps) hc.symm)

theorem set_fold_lookup_mem (sets : List (String × String)) (m : Form) (k v : String)
    (hnd : (sets.map Prod.fst).Nodup) (hmem : (k, v) ∈ sets) :
    lookupForm k (sets.foldl (fun m kv => setEntry kv.1 [kv.2] m) m) = some [v] := by
  induction sets generalizing m with
  | nil => cases hmem
  | cons p ps ih =>
    rw [List.map_cons, List.nodup_cons] at hnd
    rcases List.mem_cons.mp hmem with hp | hp
    · subst hp
      rw [List.foldl_cons]
      rw [set_fold_lookup_not_mem ps _ k ?hall]
      · exact lookup_set_self k [v] m
      case hall =>
        intro q hq hc
        apply hnd.1
        have : q.1 ∈ ps.map Prod.fst := List.mem_map_of_mem Prod.fst hq
        rw [hc] at this
        exact this
    · have hne : p.1 ≠ k := by
        intro hc
        apply hnd.1
        have : (k, v).1 ∈ ps.map Prod.fst := List.mem_map_of_mem Prod.fst hp
        rw [hc]
        exact this
      rw [List.foldl_cons]
      exact ih _ hnd.2 hp

theorem add_fold_lookup_not_mem (apps : List (String × String)) (m : Form) (k : String)
    (h : ∀ p ∈ apps, p.1 ≠ k) :
    lookupForm k (apps.foldl (fun m kv => addEntry kv.1 kv.2 m) m) = lookupForm k m := by
  induction apps generalizing m with
  | nil => rfl
  | cons p ps ih =>
    rw [List.foldl_cons, ih _ (fun q hq => h q (List.mem_cons_of_mem p hq))]
    exact lookup_add_ne p.1 k p.2 m (fun hc => h p (List.mem_cons_self p ps) hc.symm)

theorem add_fold_lookup_mem (apps : List (String × String)) (m : Form) (k v : String)
    (hnd : (apps.map Prod.fst).Nodup) (hmem : (k, v) ∈ apps) :
    lookupForm k (apps.foldl (fun m kv => addEntry kv.1 kv.2 m) m) =
      some ((lookupForm k m).getD [] ++ [v]) := by
  induction apps generalizing m with
  | nil => cases hmem
  | cons p ps ih =>
    rw [List.map_cons, List.nodup_cons] at hnd
    rcases List.mem_cons.mp hmem with hp | hp
    · subst hp
      rw [List.foldl_cons]
      rw [add_fold_lookup_not_mem ps _ k ?hall]
      · exact lookup_add_self k v m
      case hall =>
        intro q hq hc
        apply hnd.1
        have : q.1 ∈ ps.map Prod.fst := List.mem_map_of_mem Prod.fst hq
        rw [hc] at this
        exact this
    · have hne : p.1 ≠ k := by
        intro hc
        apply hnd.1
        have : (k, v).1 ∈ ps.map Prod.fst := List.mem_map_of_mem Prod.fst hp
        rw [hc]
        exact this
      rw [List.foldl_cons]
      rw [ih _ hnd.2 hp, lookup_add_ne p.1 k p.2 m (fun hc => hne hc.symm)]

/-
Characterization of applyOpsToValues / mutateForm by key.
-/

theorem mutateForm_eq_applyOps (a : Formdata) (f : Form) :
    a.mutateForm f = a.applyOpsToValues f := rfl

theorem applyOps_lookup_deleted (a : Formdata) (values : Form) (k : String)
    (hd : k ∈ a.delete) (hns : ∀ p ∈ a.set, p.1 ≠ k) (hna : ∀ p ∈ a.appendTo, p.1 ≠ k) :
    lookupForm k (a.applyOpsToValues values) = none := by
  show lookupForm k (a.appendTo.foldl _ (a.set.foldl _ (a.delete.foldl _ values))) = none
  rw [add_fold_lookup_not_mem _ _ _ hna, set_fold_lookup_not_mem _ _ _ hns,
    del_fold_lookup]
  simp [hd]

theorem applyOps_lookup_set (a : Formdata) (values : Form) (k v : String)
    (hnd : (a.set.map Prod.fst).Nodup) (hs : (k, v) ∈ a.set)
    (hna : ∀ p ∈ a.appendTo, p.1 ≠ k) :
    lookupForm k (a.applyOpsToValues values) = some [v] := by
  show lookupForm k (a.appendTo.foldl _ (a.set.foldl _ (a.delete.foldl _ values))) = some [v]
  rw [add_fold_lookup_not_mem _ _ _ hna]
  exact set_fold_lookup_mem _ _ _ _ hnd hs

theorem applyOps_lookup_set_append (a : Formdata) (values : Form) (k sv av : String)
    (hndset : (a.set.map Prod.fst).Nodup) (hndapp : (a.appendTo.map Prod.fst).Nodup)
    (hs : (k, sv) ∈ a.set) (ha : (k, av) ∈ a.appendTo) :
    lookupForm k (a.applyOpsToValues values) = some [sv, av] := by
  show lookupForm k (a.appendTo.foldl _ (a.set.foldl _ (a.delete.foldl _ values))) = some [sv, av]
  rw [add_fold_lookup_mem _ _ _ _ hndapp ha, set_fold_lookup_mem _ _ _ _ hndset hs]
  rfl

theorem applyOps_lookup_del_append (a : Formdata) (values : Form) (k av : String)
    (hndapp : (a.appendTo.map Prod.fst).Nodup)
    (hd : k ∈ a.delete) (hns : ∀ p ∈ a.set, p.1 ≠ k) (ha : (k, av) ∈ a.appendTo) :
    lookupForm k (a.applyOpsToValues values) = some [av] := by
  show lookupForm k (a.appendTo.foldl _ (a.set.foldl _ (a.delete.foldl _ values))) = some [av]
  rw [add_fold_lookup_mem _ _ _ _ hndapp ha, set_fold_lookup_not_mem _ _ _ hns,
    del_fold_lookup]
  simp [hd]

theorem applyOps_lookup_append (a : Formdata) (values : Form) (k av : String)
    (hndapp : (a.appendTo.map Prod.fst).Nodup)
    (hd : k ∉ a.delete) (hns : ∀ p ∈ a.set, p.1 ≠ k) (ha : (k, av) ∈ a.appendTo) :
    lookupForm k (a.applyOpsToValues values) = some ((lookupForm k values).getD [] ++ [av]) := by
  show lookupForm k (a.appendTo.foldl _ (a.set.foldl _ (a.delete.foldl _ values))) = _
  rw [add_fold_lookup_mem _ _ _ _ hndapp ha, set_fold_lookup_not_mem _ _ _ hns,
    del_fold_lookup]
  simp [hd]

theorem applyOps_lookup_untouched (a : Formdata) (values : Form) (k : String)
    (hd : k ∉ a.delete) (hns : ∀ p ∈ a.set, p.1 ≠ k) (hna : ∀ p ∈ a.appendTo, p.1 ≠ k) :
    lookupForm k (a.applyOpsToValues values) = lookupForm k values := by
  show lookupForm k (a.appendTo.foldl _ (a.set.foldl _ (a.delete.foldl _ values))) = _
  rw [add_fold_lookup_not_mem _ _ _ hna, set_fold_lookup_not_mem _ _ _ hns,
    del_fold_lookup]
  simp [hd]

/-- C1: the mutation pass applies delete, then set, then append, so for
any input multi-map a key in both deleteKeys and setFields (and not in
appendFields) ends as [setValue], a key in both setFields and
appendFields ends as [setValue, appendValue], and a key in both
deleteKeys and appendFields (and not in setFields) ends as
[appendValue]; this holds on the multipart path (applyOpsToValues) and
on the URL-encoded path (the Del/Set/Add loops of handleURLEncoded,
mutateForm).  The Nodup hypotheses embed the Go map invariant that the
set and append configuration maps have unique keys. -/
theorem c1_mutation_ordering (a : Formdata) (values form : Form) (k sv av : String)
    (hndset : (a.set.map Prod.fst).Nodup) (hndapp : (a.appendTo.map Prod.fst).Nodup) :
    (k ∈ a.delete → (k, sv) ∈ a.set → (∀ p ∈ a.appendTo, p.1 ≠ k) →
        lookupForm k (a.applyOpsToValues values) = some [sv] ∧
        lookupForm k (a.mutateForm form) = some [sv]) ∧
    ((k, sv) ∈ a.set → (k, av) ∈ a.appendTo →
        lookupForm k (a.applyOpsToValues values) = some [sv, av] ∧
        lookupForm k (a.mutateForm form) = some [sv, av]) ∧
    (k ∈ a.delete → (∀ p ∈ a.set, p.1 ≠ k) → (k, av) ∈ a.appendTo →
        lookupForm k (a.applyOpsToValues values) = some [av] ∧
        lookupForm k (a.mutateForm form) = some [av]) := by
  refine ⟨fun _ hs hna => ⟨?_, ?_⟩, fun hs ha => ⟨?_, ?_⟩, fun hd hns ha => ⟨?_, ?_⟩⟩
  · exact applyOps_lookup_set a values k sv hndset hs hna
  · rw [mutateForm_eq_applyOps]
    exact applyOps_lookup_set a form k sv hndset hs hna
  · exact applyOps_lookup_set_append a values k sv av hndset hndapp hs ha
  · rw [mutateForm_eq_applyOps]
    exact applyOps_lookup_set_append a form k sv av hndset hndapp hs ha
  · exact applyOps_lookup_del_append a values k av hndapp hd hns ha
  · rw [mutateForm_eq_applyOps]
    exact applyOps_lookup_del_append a form k av hndapp hd hns ha

theorem c1_mutation_ordering_witness :
    lookupForm "b" (Formdata.applyOpsToValues ⟨[("b", "y")], [("b", "w")], ["b"]⟩ [("b", ["x"])]) = some ["y", "w"] ∧
    lookupForm "b" (Formdata.mutateForm ⟨[("b", "y")], [("b", "w")], ["b"]⟩ [("b", ["x"])]) = some ["y", "w"] :=
  (c1_mutation_ordering ⟨[("b", "y")], [("b", "w")], ["b"]⟩ [("b", ["x"])] [("b", ["x"])]
    "b" "y" "w" (by decide) (by decide)).2.1 (by decide) (by decide)

/-- C2: for a mutation spec whose delete, set and append key sets are
pairwise disjoint (and with the Go-map unique-key invariant on set and
append), the pass leaves every deleted key absent, maps every set key
to exactly its one-element set value, maps every appended key to its
prior sequence with the appended value at the end (a fresh one-element
sequence when the key was absent), and leaves every key not named by
any operation unchanged in content and order. -/
theorem c2_disjoint_mutation (a : Formdata) (values : Form)
    (hndset : (a.set.map Prod.fst).Nodup) (hndapp : (a.appendTo.map Prod.fst).Nodup)
    (hds : ∀ k ∈ a.delete, ∀ p ∈ a.set, p.1 ≠ k)
    (hda : ∀ k ∈ a.delete, ∀ p ∈ a.appendTo, p.1 ≠ k)
    (hsa : ∀ p ∈ a.set, ∀ q ∈ a.appendTo, q.1 ≠ p.1) :
    (∀ k ∈ a.delete, lookupForm k (a.applyOpsToValues values) = none) ∧
    (∀ p ∈ a.set, lookupForm p.1 (a.applyOpsToValues values) = some [p.2]) ∧
    (∀ p ∈ a.appendTo,
        lookupForm p.1 (a.applyOpsToValues values) =
          some ((lookupForm p.1 values).getD [] ++ [p.2])) ∧
    (∀ k, k ∉ a.delete → (∀ p ∈ a.set, p.1 ≠ k) → (∀ p ∈ a.appendTo, p.1 ≠ k) →
        lookupForm k (a.applyOpsToValues values) = lookupForm k values) := by
  refine ⟨fun k hk => ?_, fun p hp => ?_, fun p hp => ?_, fun k hk hks hka => ?_⟩
  · exact applyOps_lookup_deleted a values k hk (hds k hk) (hda k hk)
  · exact applyOps_lookup_set a values p.1 p.2 hndset hp (hsa p hp)
  · refine applyOps_lookup_append a values p.1 p.2 hndapp ?_ ?_ hp
    · intro hc
      exact hda p.1 hc p hp rfl
    · intro q hq hc
      exact hsa q hq p hp hc.symm
  · exact applyOps_lookup_untouched a values k hk hks hka

theorem c2_disjoint_mutation_witness :
    lookupForm "c" (Formdata.applyOpsToValues ⟨[("b", "y")], [("c", "q")], ["a"]⟩ [("a", ["1"]), ("c", ["0"])]) =
      some ((lookupForm "c" [("a", ["1"]), ("c", ["0"])]).getD [] ++ ["q"]) :=
  (c2_disjoint_mutation ⟨[("b", "y")], [("c", "q")], ["a"]⟩ [("a", ["1"]), ("c", ["0"])]
    (by decide) (by decide) (by decide) (by decide) (by decide)).2.2.1 ("c", "q") (by decide)

/-
Control-flow facts about the handlers and the dispatcher.
-/

/-- A Content-Type starting with the multipart prefix cannot start with
the URL-encoded prefix (the first characters differ). -/
theorem formdata_not_urlencoded (s : String)
    (h : hasPrefixStr ctFormData s = true) : hasPrefixStr ctURLEncoded s = false := by
  obtain ⟨data⟩ := s
  cases data with
  | nil => exact absurd h (by decide)
  | cons c cs =>
    have h1 : (('m' == c) && List.isPrefixOf "ultipart/form-data".data cs) = true := h
    rw [Bool.and_eq_true] at h1
    have hc : c = 'm' := (eq_of_beq h1.1).symm
    subst hc
    rfl

/-- C3 (amended): every error is terminal for the transformation
attempt.  On a parse error the request is returned unmodified with a
400 response; on each reconstruction error (writeValues, writeFiles,
writer.Close) the request's body, content length, Content-Type and
replay function are unmodified and a 500 response is written — but the
parsed multipart form is NOT left as parsed: the full mutation pass
has already been applied to it in place before the rebuild (so there
is still no partial-mutation state in which only some fields are
mutated). -/
theorem c3_error_terminality (a : Formdata) (req : Request)
    (parseRes : Except String (Option MultipartForm)) (wv wf cl : Option String)
    (boundary : String) (msg : String) (m : MultipartForm) :
    (parseRes = Except.error msg →
      a.handleMultipart req parseRes wv wf cl boundary = (req, [⟨400, msg⟩])) ∧
    (parseRes = Except.ok (some m) → wv = some msg →
      a.handleMultipart req parseRes wv wf cl boundary =
        ({ req with multipartForm := some ⟨a.applyOpsToValues m.value, m.file⟩ }, [⟨500, msg⟩])) ∧
    (parseRes = Except.ok (some m) → wv = none → wf = some msg →
      a.handleMultipart req parseRes wv wf cl boundary =
        ({ req with multipartForm := some ⟨a.applyOpsToValues m.value, m.file⟩ }, [⟨500, msg⟩])) ∧
    (parseRes = Except.ok (some m) → wv = none → wf = none → cl = some msg →
      a.handleMultipart req parseRes wv wf cl boundary =
        ({ req with multipartForm := some ⟨a.applyOpsToValues m.value, m.file⟩ }, [⟨500, msg⟩])) := by
  refine ⟨fun h => ?_, fun h h1 => ?_, fun h h1 h2 => ?_, fun h h1 h2 h3 => ?_⟩
  · subst h; rfl
  · subst h; subst h1; rfl
  · subst h; subst h1; subst h2; rfl
  · subst h; subst h1; subst h2; subst h3; rfl

theorem c3_error_terminality_witness :
    Formdata.handleMultipart ⟨[("b", "y")], [], []⟩
        ⟨"multipart/form-data; boundary=orig", "origbody", 8, none, none, none⟩
        (Except.ok (some ⟨[("b", ["x"])], []⟩)) (some "werr") none none "nb" =
      ({ contentType := "multipart/form-data; boundary=orig", body := "origbody",
         contentLength := 8, getBody := none, postForm := none,
         multipartForm := some ⟨[("b", ["y"])], []⟩ }, [⟨500, "werr"⟩]) :=
  (c3_error_terminality ⟨[("b", "y")], [], []⟩
      ⟨"multipart/form-data; boundary=orig", "origbody", 8, none, none, none⟩
      (Except.ok (some ⟨[("b", ["x"])], []⟩)) (some "werr") none none "nb" "werr"
      ⟨[("b", ["x"])], []⟩).2.1 rfl rfl

/-- C3 as stated is false: after a multipart reconstruction error
(here: writeValues fails) the request's parsed form data is not left
exactly as parsed — the mutation pass already rewrote it in place. -/
theorem c3_error_terminality_counterexample :
    (Formdata.handleMultipart ⟨[("b", "y")], [], []⟩
        ⟨"multipart/form-data; boundary=orig", "origbody", 8, none, none, none⟩
        (Except.ok (some ⟨[("b", ["x"])], []⟩)) (some "werr") none none "nb").1.multipartForm ≠
      some ⟨[("b", ["x"])], []⟩ := by decide

/-- C5: on a parse failure under either recognized content type the
filter writes exactly one 400 response whose message is the parser's
error message, leaves the request (body included) unreplaced, and
still invokes the downstream handler with that unreplaced request. -/
theorem c5_parse_failure (a : Formdata) (req : Request) (e : Effects) (msg : String) :
    (hasPrefixStr ctURLEncoded req.contentType = true → e.parseForm = Except.error msg →
      a.serveHTTP req e = ⟨req, [⟨400, msg⟩], true⟩) ∧
    (hasPrefixStr ctFormData req.contentType = true → e.parseMultipart = Except.error msg →
      a.serveHTTP req e = ⟨req, [⟨400, msg⟩], true⟩) := by
  constructor
  · intro h hp
    simp [Formdata.serveHTTP, h, Formdata.handleURLEncoded, hp]
  · intro h hp
    have hu := formdata_not_urlencoded _ h
    simp [Formdata.serveHTTP, hu, h, Formdata.handleMultipart, hp]

theorem c5_parse_failure_witness :
    Formdata.serveHTTP ⟨[("b", "y")], [], []⟩
        ⟨"application/x-www-form-urlencoded", "a=%zz", 5, none, none, none⟩
        ⟨Except.error "invalid URL escape", Except.ok none, none, none, none, "nb"⟩ =
      ⟨⟨"application/x-www-form-urlencoded", "a=%zz", 5, none, none, none⟩,
        [⟨400, "invalid URL escape"⟩], true⟩ :=
  (c5_parse_failure ⟨[("b", "y")], [], []⟩
      ⟨"application/x-www-form-urlencoded", "a=%zz", 5, none, none, none⟩
      ⟨Except.error "invalid URL escape", Except.ok none, none, none, none, "nb"⟩
      "invalid URL escape").1 (by decide) rfl

/-- C7: a request whose Content-Type starts with neither recognized
prefix (which includes the absent Content-Type, read as the empty
string) passes through entirely unmodified — body, headers, content
length and replay function — and the downstream handler is invoked
with it; no response is written. -/
theorem c7_passthrough (a : Formdata) (req : Request) (e : Effects)
    (h1 : hasPrefixStr ctURLEncoded req.contentType = false)
    (h2 : hasPrefixStr ctFormData req.contentType = false) :
    a.serveHTTP req e = ⟨req, [], true⟩ := by
  simp [Formdata.serveHTTP, h1, h2]

theorem c7_passthrough_witness :
    Formdata.serveHTTP ⟨[("b", "y")], [], []⟩
        ⟨"application/json", "x", 1, none, none, none⟩
        ⟨Except.ok [], Except.ok none, none, none, none, "nb"⟩ =
      ⟨⟨"application/json", "x", 1, none, none, none⟩, [], true⟩ :=
  c7_passthrough ⟨[("b", "y")], [], []⟩
    ⟨"application/json", "x", 1, none, none, none⟩
    ⟨Except.ok [], Except.ok none, none, none, none, "nb"⟩ (by decide) (by decide)

/-- C8: after a successful transformation on either codec path the
installed GetBody closure is idempotent: every call yields exactly the
bytes of the replaced request body, so repeated calls yield identical
byte sequences. -/
theorem c8_replay_idempotent (a : Formdata) (req : Request)
    (parseRes : Except String Form) (f : Form)
    (parseM : Except String (Option MultipartForm)) (m : MultipartForm) (boundary : String) :
    (parseRes = Except.ok f →
      ∃ g, (a.handleURLEncoded req parseRes).1.getBody = some g ∧
        ∀ u : Unit, g u = Except.ok (a.handleURLEncoded req parseRes).1.body) ∧
    (parseM = Except.ok (some m) →
      ∃ g, (a.handleMultipart req parseM none none none boundary).1.getBody = some g ∧
        ∀ u : Unit, g u = Except.ok (a.handleMultipart req parseM none none none boundary).1.body) := by
  constructor
  · intro h
    subst h
    exact ⟨_, rfl, fun u => rfl⟩
  · intro h
    subst h
    exact ⟨_, rfl, fun u => rfl⟩

theorem c8_replay_idempotent_witness :
    ∃ g, (Formdata.handleURLEncoded ⟨[("b", "y")], [], []⟩
        ⟨"application/x-www-form-urlencoded", "b=x", 3, none, none, none⟩
        (Except.ok [("b", ["x"])])).1.getBody = some g ∧
      ∀ u : Unit, g u = Except.ok (Formdata.handleURLEncoded ⟨[("b", "y")], [], []⟩
        ⟨"application/x-www-form-urlencoded", "b=x", 3, none, none, none⟩
        (Except.ok [("b", ["x"])])).1.body :=
  (c8_replay_idempotent ⟨[("b", "y")], [], []⟩
      ⟨"application/x-www-form-urlencoded", "b=x", 3, none, none, none⟩
      (Except.ok [("b", ["x"])]) [("b", ["x"])]
      (Except.ok none) ⟨[], []⟩ "nb").1 rfl

/-- C10: the replay closures installed by both codec paths never fail:
every call returns Except.ok (a reader) — never an error — no matter
how often it is called. -/
theorem c10_replay_never_fails (a : Formdata) (req : Request)
    (parseRes : Except String Form) (f : Form)
    (parseM : Except String (Option MultipartForm)) (m : MultipartForm) (boundary : String) :
    (parseRes = Except.ok f →
      ∃ g, (a.handleURLEncoded req parseRes).1.getBody = some g ∧
        ∀ u : Unit, ∃ s, g u = Except.ok s) ∧
    (parseM = Except.ok (some m) →
      ∃ g, (a.handleMultipart req parseM none none none boundary).1.getBody = some g ∧
        ∀ u : Unit, ∃ s, g u = Except.ok s) := by
  constructor
  · intro h
    subst h
    exact ⟨_, rfl, fun u => ⟨_, rfl⟩⟩
  · intro h
    subst h
    exact ⟨_, rfl, fun u => ⟨_, rfl⟩⟩

theorem c10_replay_never_fails_witness :
    ∃ g, (Formdata.handleMultipart ⟨[("b", "y")], [], []⟩
        ⟨"multipart/form-data; boundary=orig", "xx", 2, none, none, none⟩
        (Except.ok (some ⟨[("b", ["x"])], []⟩)) none none none "nb").1.getBody = some g ∧
      ∀ u : Unit, ∃ s, g u = Except.ok s :=
  (c10_replay_never_fails ⟨[("b", "y")], [], []⟩
      ⟨"multipart/form-data; boundary=orig", "xx", 2, none, none, none⟩
      (Except.ok []) [] (Except.ok (some ⟨[("b", ["x"])], []⟩))
      ⟨[("b", ["x"])], []⟩ "nb").2 rfl

/-
String concatenation facts used by the serialization proofs.
-/

theorem strData_append (s t : String) : (s ++ t).data = s.data ++ t.data := by
  cases s
  cases t
  rfl

theorem strExt (s t : String) (h : s.data = t.data) : s = t := by
  cases s
  cases t
  exact congrArg String.mk h

theorem str_append_assoc (x y z : String) : x ++ y ++ z = x ++ (y ++ z) := by
  apply strExt
  rw [strData_append, strData_append, strData_append, strData_append, List.append_assoc]

theorem str_empty_append (s : String) : "" ++ s = s := by
  apply strExt
  rw [strData_append]
  rfl

theorem str_append_empty (s : String) : s ++ "" = s := by
  apply strExt
  rw [strData_append]
  exact List.append_nil _

theorem strFoldl_append_hoist (l : List String) (x y : String) :
    l.foldl (fun r s => r ++ s) (x ++ y) = x ++ l.foldl (fun r s => r ++ s) y := by
  induction l generalizing y with
  | nil => rfl
  | cons a as ih =>
    rw [List.foldl_cons, List.foldl_cons, str_append_assoc, ih]

theorem strJoin_cons (s : String) (l : List String) :
    String.join (s :: l) = s ++ String.join l := by
  show List.foldl _ _ _ = _
  rw [List.foldl_cons, str_empty_append]
  calc l.foldl (fun r s => r ++ s) s
      = l.foldl (fun r s => r ++ s) (s ++ "") := by rw [str_append_empty]
    _ = s ++ l.foldl (fun r s => r ++ s) "" := strFoldl_append_hoist l s ""

/-- Substring containment at the level of whole strings. -/
def strContains (t x : String) : Prop :=
  ∃ pre post, t = pre ++ x ++ post

theorem strContains_self (x : String) : strContains x x :=
  ⟨"", "", by rw [str_empty_append, str_append_empty]⟩

theorem strContains_append_left (s t x : String) (h : strContains t x) :
    strContains (s ++ t) x := by
  obtain ⟨p, q, h⟩ := h
  exact ⟨s ++ p, q, by rw [h, str_append_assoc, str_append_assoc, str_append_assoc]⟩

theorem strContains_append_right (s t x : String) (h : strContains t x) :
    strContains (t ++ s) x := by
  obtain ⟨p, q, h⟩ := h
  exact ⟨p, q ++ s, by rw [h, str_append_assoc, str_append_assoc, ← str_append_assoc]⟩

theorem strContains_trans (t x y : String) (h1 : strContains t x) (h2 : strContains x y) :
    strContains t y := by
  obtain ⟨p1, q1, h1⟩ := h1
  obtain ⟨p2, q2, h2⟩ := h2
  refine ⟨p1 ++ p2, q2 ++ q1, ?_⟩
  rw [h1, h2]
  simp only [str_append_assoc]

theorem strJoin_mem_contains {α : Type} (g : α → String) (l : List α) (p : α) (hp : p ∈ l) :
    strContains (String.join (l.map g)) (g p) := by
  induction l with
  | nil => cases hp
  | cons q qs ih =>
    rw [List.map_cons, strJoin_cons]
    rcases List.mem_cons.mp hp with hq | hq
    · subst hq
      exact strContains_append_right _ _ _ (strContains_self (g p))
    · exact strContains_append_left _ _ _ (ih hq)

/-- Every part's content occurs verbatim inside its rendering. -/
theorem renderPart_contains_content (b : String) (first : Bool) (p : MPart) :
    strContains (renderPart b first p) (partContent p) := by
  cases first
  · exact strContains_append_left _ _ _ (strContains_self (partContent p))
  · exact strContains_append_left _ _ _ (strContains_self (partContent p))

theorem renderParts_contains_content (b : String) (parts : List MPart) (p : MPart)
    (hp : p ∈ parts) : strContains (renderParts b parts) (partContent p) := by
  cases parts with
  | nil => cases hp
  | cons q qs =>
    rcases List.mem_cons.mp hp with hq | hq
    · subst hq
      exact strContains_append_right _ _ _ (renderPart_contains_content b true p)
    · exact strContains_append_left _ _ _
        (strContains_trans _ _ _ (strJoin_mem_contains (renderPart b false) qs p hq)
          (renderPart_contains_content b false p))

theorem multipartBody_contains_content (b : String) (parts : List MPart) (p : MPart)
    (hp : p ∈ parts) : strContains (multipartBody b parts) (partContent p) :=
  strContains_append_right _ _ _ (renderParts_contains_content b parts p hp)

/-
fileTriples facts.
-/

theorem fileTriples_append (l1 l2 : List MPart) :
    fileTriples (l1 ++ l2) = fileTriples l1 ++ fileTriples l2 := by
  induction l1 with
  | nil => rfl
  | cons p ps ih =>
    cases p with
    | text k v => simpa [fileTriples] using ih
    | file f n c => simpa [fileTriples] using ih

theorem fileTriples_map_text (k : String) (vs : List String) :
    fileTriples (vs.map (fun v => MPart.text k v)) = [] := by
  induction vs with
  | nil => rfl
  | cons v rest ih => simpa [fileTriples] using ih

theorem fileTriples_writeValues (values : Form) :
    fileTriples (writeValues values) = [] := by
  induction values with
  | nil => rfl
  | cons kv rest ih =>
    rw [writeValues, List.flatMap_cons, fileTriples_append, fileTriples_map_text]
    simpa [writeValues] using ih

theorem fileTriples_map_file (f : String) (fhs : List FileHeader) :
    fileTriples (fhs.map (fun fh => MPart.file f fh.filename fh.content)) =
      fhs.map (fun fh => (f, fh.filename, fh.content)) := by
  induction fhs with
  | nil => rfl
  | cons fh rest ih => simpa [fileTriples] using ih

theorem fileTriples_writeFiles (files : List (String × List FileHeader)) :
    fileTriples (writeFiles files) =
      files.flatMap (fun ffhs => ffhs.2.map (fun fh => (ffhs.1, fh.filename, fh.content))) := by
  induction files with
  | nil => rfl
  | cons ffhs rest ih =>
    rw [writeFiles, List.flatMap_cons, fileTriples_append, fileTriples_map_file,
      List.flatMap_cons]
    exact congrArg (fun t => ffhs.2.map (fun fh => (ffhs.1, fh.filename, fh.content)) ++ t) ih

/-- C4: on a successful multipart rebuild the output body is the
multipart rendering of the mutated text parts followed by the file
parts, the file parts carry exactly the parsed field names, filenames
and contents in order (mutation touches only text fields), and every
file's content occurs verbatim and in full inside the rebuilt body. -/
theorem c4_file_preservation (a : Formdata) (req : Request)
    (parseRes : Except String (Option MultipartForm)) (m : MultipartForm) (boundary : String)
    (h : parseRes = Except.ok (some m)) :
    (a.handleMultipart req parseRes none none none boundary).2 = [] ∧
    (a.handleMultipart req parseRes none none none boundary).1.body =
      multipartBody boundary (writeValues (a.applyOpsToValues m.value) ++ writeFiles m.file) ∧
    fileTriples (writeValues (a.applyOpsToValues m.value) ++ writeFiles m.file) =
      m.file.flatMap (fun ffhs => ffhs.2.map (fun fh => (ffhs.1, fh.filename, fh.content))) ∧
    (∀ ffhs ∈ m.file, ∀ fh ∈ ffhs.2,
      strContains (a.handleMultipart req parseRes none none none boundary).1.body fh.content) := by
  subst h
  refine ⟨rfl, rfl, ?_, ?_⟩
  · rw [fileTriples_append, fileTriples_writeValues, fileTriples_writeFiles]
    exact List.nil_append _
  · intro ffhs hffhs fh hfh
    have hmem : MPart.file ffhs.1 fh.filename fh.content ∈
        writeValues (a.applyOpsToValues m.value) ++ writeFiles m.file :=
      List.mem_append_right _
        (List.mem_flatMap.mpr ⟨ffhs, hffhs,
          List.mem_map_of_mem (fun fh => MPart.file ffhs.1 fh.filename fh.content) hfh⟩)
    exact multipartBody_contains_content boundary _ _ hmem

theorem c4_file_preservation_witness :
    strContains (Formdata.handleMultipart ⟨[("b", "y")], [], []⟩
      ⟨"multipart/form-data; boundary=orig", "xx", 2, none, none, none⟩
      (Except.ok (some ⟨[("b", ["x"])], [("file", [⟨"hello.txt", "hello world"⟩])]⟩))
      none none none "nb").1.body "hello world" :=
  (c4_file_preservation ⟨[("b", "y")], [], []⟩
      ⟨"multipart/form-data; boundary=orig", "xx", 2, none, none, none⟩
      (Except.ok (some ⟨[("b", ["x"])], [("file", [⟨"hello.txt", "hello world"⟩])]⟩))
      ⟨[("b", ["x"])], [("file", [⟨"hello.txt", "hello world"⟩])]⟩ "nb" rfl).2.2.2
    ("file", [⟨"hello.txt", "hello world"⟩]) (by decide)
    ⟨"hello.txt", "hello world"⟩ (by decide)

/-- C9 (amended): on a successful rebuild the Content-Type header is
updated to multipart/form-data; boundary=<newBoundary> where
newBoundary is exactly the writer's freshly generated boundary, and
the rebuilt body is framed with that same boundary.  The code performs
no containment or distinctness check on the random boundary, so its
distinctness from the original boundary and its non-occurrence inside
field values or file contents hold only with the probabilistic
guarantee of the random generator, not unconditionally. -/
theorem c9_boundary_header (a : Formdata) (req : Request) (m : MultipartForm)
    (boundary : String) :
    (a.handleMultipart req (Except.ok (some m)) none none none boundary).2 = [] ∧
    (a.handleMultipart req (Except.ok (some m)) none none none boundary).1.contentType =
      ctMultipartPre ++ boundary ∧
    (a.handleMultipart req (Except.ok (some m)) none none none boundary).1.body =
      multipartBody boundary (writeValues (a.applyOpsToValues m.value) ++ writeFiles m.file) :=
  ⟨rfl, rfl, rfl⟩

/-- Decidable check that the character sequence x occurs inside t. -/
def containsSeq (x : List Char) : List Char → Bool
  | [] => List.isPrefixOf x []
  | c :: rest => List.isPrefixOf x (c :: rest) || containsSeq x rest

/-- C9 as stated is false: the boundary is random and unchecked.  With
generated boundary B, an original request boundary also B, and an
untouched field value containing B, the rebuild succeeds, the
Content-Type (hence the boundary token) is identical to the original,
and the boundary occurs as a raw substring of a field value carried
into the rebuilt body. -/
theorem c9_boundary_counterexample :
    (Formdata.handleMultipart ⟨[("b", "y")], [], []⟩
        ⟨"multipart/form-data; boundary=B", "xx", 2, none, none, none⟩
        (Except.ok (some ⟨[("b", ["x"]), ("c", ["see--B"])], []⟩)) none none none "B").2 = [] ∧
    (Formdata.handleMultipart ⟨[("b", "y")], [], []⟩
        ⟨"multipart/form-data; boundary=B", "xx", 2, none, none, none⟩
        (Except.ok (some ⟨[("b", ["x"]), ("c", ["see--B"])], []⟩)) none none none "B").1.contentType =
      "multipart/form-data; boundary=B" ∧
    (Formdata.handleMultipart ⟨[("b", "y")], [], []⟩
        ⟨"multipart/form-data; boundary=B", "xx", 2, none, none, none⟩
        (Except.ok (some ⟨[("b", ["x"]), ("c", ["see--B"])], []⟩)) none none none "B").1.multipartForm =
      some ⟨[("b", ["y"]), ("c", ["see--B"])], []⟩ ∧
    containsSeq "B".data "see--B".data = true := by
  refine ⟨rfl, rfl, by decide, by decide⟩

/-
Order facts for sortStrings.
-/

theorem lexLe_total (as bs : List Char) : lexLe as bs = true ∨ lexLe bs as = true := by
  induction as generalizing bs with
  | nil => left; rfl
  | cons a as ih =>
    cases bs with
    | nil => right; rfl
    | cons b bs =>
      rcases Nat.lt_trichotomy a.toNat b.toNat with h | h | h
      · left; simp [lexLe, h]
      · rcases ih bs with h2 | h2
        · left; simp [lexLe, h, h2]
        · right; simp [lexLe, h.symm, h2]
      · right; simp [lexLe, h]

theorem lexLe_trans (as bs cs : List Char) (h1 : lexLe as bs = true)
    (h2 : lexLe bs cs = true) : lexLe as cs = true := by
  induction as generalizing bs cs with
  | nil => rfl
  | cons a as ih =>
    cases bs with
    | nil => simp [lexLe] at h1
    | cons b bs =>
      cases cs with
      | nil => simp [lexLe] at h2
      | cons c cs =>
        simp only [lexLe, Bool.or_eq_true, Bool.and_eq_true, decide_eq_true_eq] at h1 h2 ⊢
        rcases h1 with h1 | ⟨he1, hr1⟩
        · rcases h2 with h2 | ⟨he2, hr2⟩
          · exact Or.inl (Nat.lt_trans h1 h2)
          · exact Or.inl (by omega)
        · rcases h2 with h2 | ⟨he2, hr2⟩
          · exact Or.inl (by omega)
          · exact Or.inr ⟨by omega, ih bs cs hr1 hr2⟩

theorem strLe_total (a b : String) : strLe a b = true ∨ strLe b a = true :=
  lexLe_total a.data b.data

theorem strLe_trans (a b c : String) (h1 : strLe a b = true) (h2 : strLe b c = true) :
    strLe a c = true :=
  lexLe_trans a.data b.data c.data h1 h2

theorem mem_insertSorted (x z : String) (l : List String) :
    z ∈ insertSorted x l ↔ z = x ∨ z ∈ l := by
  induction l with
  | nil => simp [insertSorted]
  | cons y ys ih =>
    by_cases hxy : strLe x y = true
    · rw [insertSorted, if_pos hxy]
      simp [List.mem_cons]
    · rw [insertSorted, if_neg hxy]
      simp [List.mem_cons, ih]
      tauto

theorem pairwise_insertSorted (x : String) (l : List String)
    (h : List.Pairwise (fun a b => strLe a b = true) l) :
    List.Pairwise (fun a b => strLe a b = true) (insertSorted x l) := by
  induction l with
  | nil => simp [insertSorted]
  | cons y ys ih =>
    rw [List.pairwise_cons] at h
    by_cases hxy : strLe x y = true
    · rw [insertSorted, if_pos hxy, List.pairwise_cons]
      refine ⟨?_, List.pairwise_cons.mpr ⟨h.1, h.2⟩⟩
      intro z hz
      rcases List.mem_cons.mp hz with hz | hz
      · subst hz; exact hxy
      · exact strLe_trans x y z hxy (h.1 z hz)
    · rw [insertSorted, if_neg hxy, List.pairwise_cons]
      refine ⟨?_, ih h.2⟩
      intro z hz
      rcases (mem_insertSorted x z ys).mp hz with hz | hz
      · rcases strLe_total x y with ht | ht
        · exact absurd ht hxy
        · rw [hz]
          exact ht
      · exact h.1 z hz

theorem sorted_sortStrings (l : List String) :
    List.Pairwise (fun a b => strLe a b = true) (sortStrings l) := by
  induction l with
  | nil => exact List.Pairwise.nil
  | cons s rest ih => exact pairwise_insertSorted s _ ih

/-
Decomposition of encode into ampersand-joined pieces.
-/

theorem foldl_flatMap {α β γ : Type} (l : List α) (g : α → List β) (f : γ → β → γ) (i : γ) :
    (l.flatMap g).foldl f i = l.foldl (fun acc x => (g x).foldl f acc) i := by
  induction l generalizing i with
  | nil => rfl
  | cons a as ih => rw [List.flatMap_cons, List.foldl_append, List.foldl_cons, ih]

theorem inner_fold_map (v : Form) (k : String) (buf : String) :
    ((lookupForm k v).getD []).foldl
      (fun b w => (if b = "" then b else b ++ ampStr) ++ queryEscape k ++ eqStr ++ queryEscape w) buf =
    (((lookupForm k v).getD []).map (fun w => queryEscape k ++ eqStr ++ queryEscape w)).foldl
      (fun b p => (if b = "" then b else b ++ ampStr) ++ p) buf := by
  rw [List.foldl_map]
  have hf : (fun (b : String) (w : String) =>
      (if b = "" then b else b ++ ampStr) ++ (queryEscape k ++ eqStr ++ queryEscape w)) =
      (fun (b : String) (w : String) =>
      (if b = "" then b else b ++ ampStr) ++ queryEscape k ++ eqStr ++ queryEscape w) := by
    funext b w
    simp only [str_append_assoc]
  rw [hf]

theorem encode_eq_pieces (v : Form) :
    encode v = (encodePieces v).foldl
      (fun b p => (if b = "" then b else b ++ ampStr) ++ p) "" := by
  rw [encodePieces, foldl_flatMap]
  show (sortStrings (v.map Prod.fst)).foldl
      (fun buf k => ((lookupForm k v).getD []).foldl
        (fun b w => (if b = "" then b else b ++ ampStr) ++ queryEscape k ++ eqStr ++ queryEscape w) buf) ""
    = (sortStrings (v.map Prod.fst)).foldl
      (fun acc k => (((lookupForm k v).getD []).map
          (fun w => queryEscape k ++ eqStr ++ queryEscape w)).foldl
        (fun b p => (if b = "" then b else b ++ ampStr) ++ p) acc) ""
  have hf : (fun (buf : String) (k : String) => ((lookupForm k v).getD []).foldl
        (fun b w => (if b = "" then b else b ++ ampStr) ++ queryEscape k ++ eqStr ++ queryEscape w) buf) =
      (fun (acc : String) (k : String) => (((lookupForm k v).getD []).map
          (fun w => queryEscape k ++ eqStr ++ queryEscape w)).foldl
        (fun b p => (if b = "" then b else b ++ ampStr) ++ p) acc) := by
    funext buf k
    exact inner_fold_map v k buf
  rw [hf]

theorem str_append_ne_empty_left (s t : String) (h : s ≠ "") : s ++ t ≠ "" := by
  intro hc
  apply h
  have hd : s.data ++ t.data = [] := by
    have h0 := congrArg String.data hc
    rw [strData_append] at h0
    exact h0
  exact strExt s "" (List.append_eq_nil.mp hd).1

theorem foldAmp_tail (ps : List String) (buf : String) (hb : buf ≠ "") :
    ps.foldl (fun b p => (if b = "" then b else b ++ ampStr) ++ p) buf =
    ps.foldl (fun acc q => acc ++ ampStr ++ q) buf := by
  induction ps generalizing buf with
  | nil => rfl
  | cons p ps ih =>
    rw [List.foldl_cons, List.foldl_cons, if_neg hb]
    exact ih _ (str_append_ne_empty_left _ _ (str_append_ne_empty_left _ _ hb))

theorem foldAmp_eq_joinAmp (l : List String) (h : ∀ p ∈ l, p ≠ "") :
    l.foldl (fun b p => (if b = "" then b else b ++ ampStr) ++ p) "" = joinAmp l := by
  cases l with
  | nil => rfl
  | cons p ps =>
    rw [List.foldl_cons, joinAmp, if_pos rfl, str_empty_append]
    exact foldAmp_tail ps p (h p (List.mem_cons_self p ps))

theorem piece_ne_empty (x y : String) : x ++ eqStr ++ y ≠ "" := by
  intro hc
  have hd : x.data ++ eqStr.data ++ y.data = [] := by
    have h0 := congrArg String.data hc
    rw [strData_append, strData_append] at h0
    exact h0
  exact absurd (List.append_eq_nil.mp (List.append_eq_nil.mp hd).1).2 (by decide)

theorem encodePieces_ne_empty (v : Form) : ∀ p ∈ encodePieces v, p ≠ "" := by
  intro p hp
  rw [encodePieces] at hp
  obtain ⟨k, _, hp⟩ := List.mem_flatMap.mp hp
  obtain ⟨w, _, hpe⟩ := List.mem_map.mp hp
  exact hpe ▸ piece_ne_empty (queryEscape k) (queryEscape w)

/-- C6: on a successfully parsed URL-encoded body the handler replaces
the body with the url.Values encoding of the mutated form, sets the
content length to the byte length of that body, the encoding lists
keys in ascending lexicographic order, and it is the ampersand-join of
the key=value pieces — each key's values in the order the mutation
pass produced, keys and values percent-escaped per the standard
form-encoding rules (queryEscape). -/
theorem c6_urlencoded_reencoding (a : Formdata) (req : Request)
    (parseRes : Except String Form) (f : Form) (h : parseRes = Except.ok f) :
    (a.handleURLEncoded req parseRes).1.body = encode (a.mutateForm f) ∧
    (a.handleURLEncoded req parseRes).1.contentLength =
      byteLen ((a.handleURLEncoded req parseRes).1.body) ∧
    List.Pairwise (fun x y => strLe x y = true)
      (sortStrings ((a.mutateForm f).map Prod.fst)) ∧
    encode (a.mutateForm f) = joinAmp (encodePieces (a.mutateForm f)) := by
  subst h
  refine ⟨rfl, rfl, sorted_sortStrings _, ?_⟩
  rw [encode_eq_pieces]
  exact foldAmp_eq_joinAmp _ (encodePieces_ne_empty _)

theorem c6_urlencoded_reencoding_witness :
    (Formdata.handleURLEncoded ⟨[("b", "y")], [("d", "q")], ["a"]⟩
      ⟨"application/x-www-form-urlencoded", "a=1&b=x", 7, none, none, none⟩
      (Except.ok [("a", ["1"]), ("b", ["x"])])).1.body =
      encode (Formdata.mutateForm ⟨[("b", "y")], [("d", "q")], ["a"]⟩ [("a", ["1"]), ("b", ["x"])]) ∧
    encode (Formdata.mutateForm ⟨[("b", "y")], [("d", "q")], ["a"]⟩ [("a", ["1"]), ("b", ["x"])]) =
      joinAmp (encodePieces (Formdata.mutateForm ⟨[("b", "y")], [("d", "q")], ["a"]⟩ [("a", ["1"]), ("b", ["x"])])) :=
  ⟨(c6_urlencoded_reencoding ⟨[("b", "y")], [("d", "q")], ["a"]⟩
      ⟨"application/x-www-form-urlencoded", "a=1&b=x", 7, none, none, none⟩
      (Except.ok [("a", ["1"]), ("b", ["x"])]) [("a", ["1"]), ("b", ["x"])] rfl).1,
   (c6_urlencoded_reencoding ⟨[("b", "y")], [("d", "q")], ["a"]⟩
      ⟨"application/x-www-form-urlencoded", "a=1&b=x", 7, none, none, none⟩
      (Except.ok [("a", ["1"]), ("b", ["x"])]) [("a", ["1"]), ("b", ["x"])] rfl).2.2.2⟩
